import Mathlib

/-!
Verification of the PocketBook-to-Readwise sync program (`pocketbook_sync.py`).

The development shallowly embeds the program's data model and operations:

* HTML documents already parsed by BeautifulSoup are modelled as `HtmlDoc`
  (an optional primary heading, an optional secondary title element, and the
  ordered list of bookmark container divs with their relevant sub-elements).
* Files on the mounted device are `ExportFile` records carrying the path,
  file name, stem, modification time, the md5 digest of the raw bytes
  (external `hashlib`, abstracted as an opaque-to-us string field), and the
  decoded document (`none` models a file no candidate encoding could decode).
* The md5 hash over strings used for highlight identity (external `hashlib`)
  is a function parameter `md5` threaded through the definitions.
* The network (`requests.post` plus `raise_for_status`) is a function
  parameter `net : Nat → Bool` giving the transport-level outcome of the
  k-th upload call of the run.
* `datetime.now().isoformat()` is a string parameter `nowIso`.
* Python dicts (`cache["synced_highlights"]`, `cache["file_hashes"]`,
  `book_groups`) are association lists with Python-dict semantics:
  update-in-place of the first (unique) occurrence, append of fresh keys.
-/

set_option maxRecDepth 4000

namespace PBSync

/-! ## Python dict as an association list -/

/-- Python dict assignment `d[k] = v`: replace the value at an existing key
(keeping its position), otherwise append the new binding at the end. -/
def dictInsert {α : Type} : List (String × α) → String → α → List (String × α)
  | [], k, v => [(k, v)]
  | p :: ps, k, v => if p.1 = k then (k, v) :: ps else p :: dictInsert ps k v

/-- Python dict read `d.get(k)` / membership `k in d`. -/
def dictLookup {α : Type} : List (String × α) → String → Option α
  | [], _ => none
  | p :: ps, k => if p.1 = k then some p.2 else dictLookup ps k

/-! ## String helpers mirroring the Python string operations used -/

/-- Whether the second character list starts with the first. -/
def seqStarts : List Char → List Char → Bool
  | [], _ => true
  | _ :: _, [] => false
  | a :: as, b :: bs => a == b && seqStarts as bs

def trimLeadingWs (cs : List Char) : List Char := cs.dropWhile Char.isWhitespace

/-- Python `str.strip()` / BeautifulSoup `get_text(strip=True)` on a single
text node: drop leading and trailing whitespace. -/
def pyStrip (s : String) : String :=
  ((trimLeadingWs ((trimLeadingWs s.toList).reverse)).reverse).asString

/-- Find the first occurrence of `sep` and split there. -/
def splitOnceChars (sep : List Char) : List Char → Option (List Char × List Char)
  | [] => none
  | c :: cs =>
    if seqStarts sep (c :: cs) then some ([], List.drop sep.length (c :: cs))
    else
      match splitOnceChars sep cs with
      | some pr => some (c :: pr.1, pr.2)
      | none => none

/-- Python `s.split(sep, 1)` when `sep in s` (returns `none` when the
separator does not occur, i.e. when `sep in s` is false). -/
def splitOnce (s sep : String) : Option (String × String) :=
  match splitOnceChars sep.toList s.toList with
  | some pr => some (pr.1.asString, pr.2.asString)
  | none => none

/-- Python `s.replace(pat, '')` (delete every occurrence of `pat`), with fuel
bounding the scan by the length of the string. -/
def replaceGo (pat : List Char) : Nat → List Char → List Char
  | _, [] => []
  | 0, l => l
  | fuel + 1, c :: cs =>
    if seqStarts pat (c :: cs) then replaceGo pat fuel (List.drop pat.length (c :: cs))
    else c :: replaceGo pat fuel cs

def replaceAll (s pat : String) : String :=
  (replaceGo pat.toList s.toList.length s.toList).asString

def digitsToNat (cs : List Char) : Nat := cs.foldl (fun n c => n * 10 + (c.toNat - 48)) 0

/-- `re.search(r'\d+', s)` followed by `int(...)`: the first maximal run of
digits, as a number. -/
def firstDigitRun : List Char → Option (List Char)
  | [] => none
  | c :: cs => if c.isDigit then some (List.takeWhile Char.isDigit (c :: cs)) else firstDigitRun cs

def firstNumber (s : String) : Option Nat :=
  match firstDigitRun s.toList with
  | some run => some (digitsToNat run)
  | none => none

/-! ## `datetime.strptime(date_part, "%Y-%m-%d %H:%M:%S")` and `isoformat` -/

structure DateTimeParts where
  year : Nat
  month : Nat
  day : Nat
  hour : Nat
  minute : Nat
  second : Nat
deriving DecidableEq

def isLeapYear (y : Nat) : Bool := (y % 4 = 0 && y % 100 ≠ 0) || y % 400 = 0

def daysInMonth (y m : Nat) : Nat :=
  if m = 2 then (if isLeapYear y then 29 else 28)
  else if m = 4 ∨ m = 6 ∨ m = 9 ∨ m = 11 then 30
  else 31

/-- Python `re` class `\s` on a `str` (Unicode mode): the White_Space
characters together with the information-separator controls. -/
def pyIsSpace (c : Char) : Bool :=
  decide (c.toNat = 32 ∨ (9 ≤ c.toNat ∧ c.toNat ≤ 13) ∨ (28 ≤ c.toNat ∧ c.toNat ≤ 31)
    ∨ c.toNat = 133 ∨ c.toNat = 160 ∨ c.toNat = 5760
    ∨ (8192 ≤ c.toNat ∧ c.toNat ≤ 8202) ∨ c.toNat = 8232 ∨ c.toNat = 8233
    ∨ c.toNat = 8239 ∨ c.toNat = 8287 ∨ c.toNat = 12288)

/-- A leading digit run whose length lies in `[lo, hi]`, with its value and
the remainder; `none` when the maximal digit run is shorter or longer.
Because every strptime field below is an ordered alternation of digit-only
branches bounded by a non-digit separator, the field must consume the whole
run, so run-length plus value bounds capture the regex exactly. -/
def digitField (lo hi : Nat) (cs : List Char) : Option (Nat × List Char) :=
  if lo ≤ (cs.takeWhile Char.isDigit).length ∧ (cs.takeWhile Char.isDigit).length ≤ hi then
    some (digitsToNat (cs.takeWhile Char.isDigit), cs.dropWhile Char.isDigit)
  else none

/-- One expected literal character. -/
def expectChar (c : Char) : List Char → Option (List Char)
  | [] => none
  | x :: xs => if x = c then some xs else none

/-- The `\s+` a whitespace run in the format compiles to: at least one
whitespace character, consuming the whole run. -/
def expectWs : List Char → Option (List Char)
  | [] => none
  | x :: xs => if pyIsSpace x then some (xs.dropWhile pyIsSpace) else none

/-- Model of CPython `datetime.strptime(s, "%Y-%m-%d %H:%M:%S")` (external
stdlib). `_strptime` compiles this format to the fully anchored pattern
`(\d\d\d\d)-(1[0-2]|0[1-9]|[1-9])-(3[01]|[12]\d|0[1-9]|[1-9])\s+`
`(2[0-3]|[0-1]\d|\d):([0-5]\d|\d):(6[0-1]|[0-5]\d|\d)` — a 4-digit year and
1-or-2-digit month, day, hour, minute and second runs, the format's space
matching a nonempty whitespace run. On 1-2-digit runs the ordered
alternations are equivalent to the value bounds checked below. Seconds
60-61 pass the regex but the `datetime` constructor then raises
`ValueError`, as do days invalid for their month and year 0, and the caller
catches `ValueError` either way, so those are rejected here too. Digits are
modelled as ASCII; non-ASCII Unicode digits, which `\d` and `int()` would
accept, are out of scope. -/
def strptimeYmdHms (s : String) : Option DateTimeParts := do
  let (y, r1) ← digitField 4 4 s.toList
  let r2 ← expectChar '-' r1
  let (mo, r3) ← digitField 1 2 r2
  let r4 ← expectChar '-' r3
  let (da, r5) ← digitField 1 2 r4
  let r6 ← expectWs r5
  let (ho, r7) ← digitField 1 2 r6
  let r8 ← expectChar ':' r7
  let (mi, r9) ← digitField 1 2 r8
  let r10 ← expectChar ':' r9
  let (se, r11) ← digitField 1 2 r10
  if r11 = [] ∧ 1 ≤ y ∧ 1 ≤ mo ∧ mo ≤ 12 ∧ 1 ≤ da ∧ da ≤ daysInMonth y mo
      ∧ ho ≤ 23 ∧ mi ≤ 59 ∧ se ≤ 59 then
    pure { year := y, month := mo, day := da, hour := ho, minute := mi, second := se }
  else none

def pad2 (n : Nat) : String := (if n < 10 then ("0") else ("")) ++ toString n

def pad4 (n : Nat) : String :=
  (if n < 10 then ("000") else if n < 100 then ("00") else if n < 1000 then ("0") else (""))
    ++ toString n

/-- `datetime.isoformat()` for a whole-second datetime. -/
def isoOfParts (p : DateTimeParts) : String :=
  pad4 p.year ++ ("-") ++ pad2 p.month ++ ("-") ++ pad2 p.day ++ ("T")
    ++ pad2 p.hour ++ (":") ++ pad2 p.minute ++ (":") ++ pad2 p.second

def plusUtc : String := "+00:00"

/-! ## Data model -/

/-- One `div class="bookmark"` container as seen through BeautifulSoup:
the `id` attribute, the css class list, and the text content of the relevant
sub-elements (`none` when the sub-element is absent). Texts are stored raw;
`get_text(strip=True)` is applied by the extractor. -/
structure BookmarkDiv where
  idAttr : Option String
  classes : List String
  pageText : Option String
  textElem : Option String
  noteElem : Option String
  spanText : Option String
deriving DecidableEq

/-- A decoded export file: optional `h1` text, optional `title` element text,
and the ordered bookmark containers. -/
structure HtmlDoc where
  h1 : Option String
  titleTag : Option String
  bookmarks : List BookmarkDiv
deriving DecidableEq

/-- A `*.html` file found by the glob. `fileHash` is the md5 hex digest of the
raw bytes (external `hashlib`); `content = none` models a file that none of
the candidate encodings could decode. -/
structure ExportFile where
  path : String
  name : String
  stem : String
  mtime : Nat
  fileHash : String
  content : Option HtmlDoc
deriving DecidableEq

structure Highlight where
  id : String
  text : String
  location : Option Nat
  note : Option String
  highlighted_at : Option String
deriving DecidableEq

structure SyncEntry where
  synced_at : String
  book : String
deriving DecidableEq

/-- The persisted cache: `{"synced_highlights": {...}, "file_hashes": {...}}`. -/
structure Store where
  synced_highlights : List (String × SyncEntry)
  file_hashes : List (String × String)
deriving DecidableEq

structure Payload where
  text : String
  title : String
  author : String
  source_type : String
  category : String
  highlighted_at : String
  location : Option Nat
  location_type : Option String
  note : Option String
deriving DecidableEq

/-! ## Highlight extractor (`_parse_highlights`) -/

def sepDash : String := " - "

def unknownAuthor : String := "Unknown Author"

def colorMarker : String := "bm-color-"

def colorNoneClass : String := "bm-color-none"

/-- The color scan: first css class starting with `bm-color-` other than
`bm-color-none`, formatted as `.name`. -/
def colorTag (classes : List String) : Option String :=
  match classes.find? (fun c => seqStarts colorMarker.toList c.toList && c != colorNoneClass) with
  | some c => some (("." ) ++ replaceAll c colorMarker)
  | none => none

/-- Title and default timestamp from the `h1` heading
(`"2025-06-28 16:57:41 - Title"` handling). -/
def parseTitleTs (stem : String) (h1Text : Option String) : String × Option String :=
  match h1Text with
  | some raw =>
    match splitOnce (pyStrip raw) sepDash with
    | some pr =>
      match strptimeYmdHms pr.1 with
      | some dtp => (pr.2, some (isoOfParts dtp ++ plusUtc))
      | none => (pr.2, none)
    | none => (pyStrip raw, none)
  | none => (stem, none)

/-- The `location` local of the extraction loop: page number from the
`bm-page` sub-element. -/
def pageLocation (d : BookmarkDiv) : Option Nat :=
  match d.pageText with
  | some p => firstNumber (pyStrip p)
  | none => none

/-- The `note` local before color folding: trimmed `bm-note` text. -/
def noteText (d : BookmarkDiv) : Option String :=
  match d.noteElem with
  | some n => some (pyStrip n)
  | none => none

/-- Folding the color tag into the note: with a tag, append it to a truthy
note (space separated), else the note becomes just the tag; with no tag the
note is unchanged. -/
def noteWithColor (ctag : Option String) (note0 : Option String) : Option String :=
  match ctag with
  | some tag =>
    some (match note0 with
      | some n => if n ≠ "" then n ++ (" ") ++ tag else tag
      | none => tag)
  | none => note0

/-- The per-container body of the extraction loop: `none` when the container
yields no highlight (no truthy `id` attribute, no text element, or trimmed
text that is empty or of length ≤ 10). -/
def blockHighlight (md5 : String → String) (title : String) (highlightedAt : Option String)
    (d : BookmarkDiv) : Option Highlight :=
  match d.idAttr with
  | none => none
  | some attr =>
    if attr = "" then none
    else
      match d.textElem with
      | none => none
      | some rawText =>
        if pyStrip rawText ≠ "" ∧ (pyStrip rawText).length > 10 then
          some { id := md5 (title ++ pyStrip rawText),
                 text := pyStrip rawText,
                 location := pageLocation d,
                 note := noteWithColor (colorTag d.classes) (noteText d),
                 highlighted_at := highlightedAt }
        else none

structure ParsedFile where
  title : String
  author : String
  highlights : List Highlight
deriving DecidableEq

/-- `_parse_highlights`: title, author and the ordered highlight list of one
file. -/
def parseHighlights (md5 : String → String) (f : ExportFile) : ParsedFile :=
  match f.content with
  | none => { title := f.stem, author := unknownAuthor, highlights := [] }
  | some doc =>
    let tt := parseTitleTs f.stem doc.h1
    let author :=
      match List.drop 1 doc.bookmarks with
      | d :: _ =>
        match d.spanText with
        | some a => pyStrip a
        | none => unknownAuthor
      | [] => unknownAuthor
    { title := tt.1, author := author,
      highlights := doc.bookmarks.filterMap (blockHighlight md5 tt.1 tt.2) }

/-! ## Book grouper (`_group_files_by_book`) -/

def macJunkChars : List Char := ['.', '_']

/-- The title string a file is grouped under, given its decoded document:
`h1` text, else `title` element text (both trimmed, with a `" - "` date
prefix stripped), else the filename stem. -/
def titleFromText (raw : String) : String :=
  match splitOnce (pyStrip raw) sepDash with
  | some pr => pr.2
  | none => pyStrip raw

def bookTitleOfFile (f : ExportFile) (doc : HtmlDoc) : String :=
  match doc.h1 with
  | some raw => titleFromText raw
  | none =>
    match doc.titleTag with
    | some raw => titleFromText raw
    | none => f.stem

/-- `book_groups[title].append(f)` with dict-creation of a missing key. -/
def groupInsert : List (String × List ExportFile) → String → ExportFile →
    List (String × List ExportFile)
  | [], t, f => [(t, [f])]
  | g :: gs, t, f => if g.1 = t then (g.1, g.2 ++ [f]) :: gs else g :: groupInsert gs t f

/-- One iteration of the grouping loop: skip macOS `._` junk names and
undecodable files, otherwise insert under the extracted title. -/
def groupStep (gs : List (String × List ExportFile)) (f : ExportFile) :
    List (String × List ExportFile) :=
  if seqStarts macJunkChars f.name.toList then gs
  else
    match f.content with
    | none => gs
    | some doc => groupInsert gs (bookTitleOfFile f doc) f

def notMountedMsg : String := "PocketBook not mounted"

/-- `_group_files_by_book`: fatal `FileNotFoundError` when the mount point is
missing, else the ordered title → files dict built over the globbed files. -/
def groupFilesByBook (dirExists : Bool) (files : List ExportFile) :
    Except String (List (String × List ExportFile)) :=
  if dirExists then Except.ok (files.foldl groupStep []) else Except.error notMountedMsg

/-- `max(book_files, key=mtime)`: the first file of maximal mtime. -/
def getLatestBookFile (f : ExportFile) (fs : List ExportFile) : ExportFile :=
  fs.foldl (fun a b => if b.mtime > a.mtime then b else a) f

/-! ## Upload payloads (`_create_readwise_payload`) -/

def sourceTypeBook : String := "book"

def categoryBooks : String := "books"

def pageLocType : String := "page"

def createReadwisePayload (nowIso title author : String) (h : Highlight) : Payload :=
  { text := h.text, title := title, author := author,
    source_type := sourceTypeBook, category := categoryBooks,
    highlighted_at :=
      match h.highlighted_at with
      | some s => if s ≠ "" then s else nowIso ++ plusUtc
      | none => nowIso ++ plusUtc,
    location := h.location,
    location_type :=
      match h.location with
      | some _ => some pageLocType
      | none => none,
    note :=
      match h.note with
      | some n => if n ≠ "" then some n else none
      | none => none }

/-! ## Upload loop and orchestrator (`sync`) -/

def batchSize : Nat := 100

/-- State threaded through the per-book upload loop: the in-memory
`synced_highlights` dict, the batches sent so far (in call order), the
batches whose call returned transport-level success, and the global upload
call counter consulted by the `net` oracle. -/
structure UploadState where
  synced : List (String × SyncEntry)
  sent : List (List Payload)
  okSent : List (List Payload)
  call : Nat
deriving DecidableEq

/-- The inner marking loop of a successful batch: for each of
`highlights[i:i+len(batch)]` (note: the unfiltered parsed list), write its id
into `synced_highlights`. -/
def markBatch (nowIso title : String) (hs : List Highlight)
    (synced : List (String × SyncEntry)) : List (String × SyncEntry) :=
  hs.foldl (fun acc h => dictInsert acc h.id { synced_at := nowIso, book := title }) synced

/-- `for i in range(0, len(new_highlights), batch_size)`: at loop index `i`,
send `new_highlights[i:i+batch_size]`; on success mark
`highlights[i:i+len(batch)]` synced. The first argument is fuel bounding the
number of iterations; it is always called with fuel ≥ the number of
remaining payloads, which makes the `(0, _ :: _)` branch unreachable. -/
def uploadGo (net : Nat → Bool) (nowIso title : String) (hs : List Highlight) :
    Nat → Nat → List Payload → UploadState → UploadState
  | _, _, [], st => st
  | 0, _, _ :: _, st => st
  | fuel + 1, i, p :: rest, st =>
    let batch := (p :: rest).take batchSize
    let ok := net st.call
    let synced' :=
      if ok then markBatch nowIso title ((hs.drop i).take batch.length) st.synced
      else st.synced
    uploadGo net nowIso title hs fuel (i + batchSize) ((p :: rest).drop batchSize)
      { synced := synced',
        sent := st.sent ++ [batch],
        okSent := if ok then st.okSent ++ [batch] else st.okSent,
        call := st.call + 1 }

/-- The whole batching loop over a book's queued payloads. -/
def runUpload (net : Nat → Bool) (nowIso title : String) (hs : List Highlight)
    (ps : List Payload) (st : UploadState) : UploadState :=
  uploadGo net nowIso title hs ps.length 0 ps st

/-- State of one `sync()` run: the in-memory cache, the snapshots written by
`_save_cache` in order, all batches sent, the successful batches, the printed
`total_new_highlights` counter, and the upload call counter. -/
structure RunState where
  store : Store
  saves : List Store
  sent : List (List Payload)
  okSent : List (List Payload)
  total : Nat
  call : Nat
deriving DecidableEq

def initRunState (store0 : Store) : RunState :=
  { store := store0, saves := [], sent := [], okSent := [], total := 0, call := 0 }

/-- The `new_highlights` payload queue of one book: the extracted highlights
whose ids are not in the synced dict, as payloads, in extraction order. -/
def bookNewPayloads (nowIso : String) (store : Store) (parsed : ParsedFile) : List Payload :=
  (parsed.highlights.filter
    (fun h => dictLookup store.synced_highlights h.id = none)).map
    (createReadwisePayload nowIso parsed.title parsed.author)

/-- The `if new_highlights:` guarded upload loop of one book. -/
def bookUpload (net : Nat → Bool) (nowIso : String) (st : RunState)
    (parsed : ParsedFile) : UploadState :=
  if bookNewPayloads nowIso st.store parsed ≠ [] then
    runUpload net nowIso parsed.title parsed.highlights
      (bookNewPayloads nowIso st.store parsed)
      { synced := st.store.synced_highlights, sent := [], okSent := [], call := st.call }
  else
    { synced := st.store.synced_highlights, sent := [], okSent := [], call := st.call }

/-- The cache contents after a changed book: the (possibly updated) synced
dict and the unconditional file-hash write. -/
def processChangedStore (md5 : String → String) (net : Nat → Bool) (nowIso : String)
    (st : RunState) (latest : ExportFile) : Store :=
  { synced_highlights := (bookUpload net nowIso st (parseHighlights md5 latest)).synced,
    file_hashes := dictInsert st.store.file_hashes latest.path latest.fileHash }

/-- The loop body for a book whose authoritative file's hash changed:
upload, write the file hash, save the cache, bump the printed total. -/
def processChanged (md5 : String → String) (net : Nat → Bool) (nowIso : String)
    (st : RunState) (latest : ExportFile) : RunState :=
  { store := processChangedStore md5 net nowIso st latest,
    saves := st.saves ++ [processChangedStore md5 net nowIso st latest],
    sent := st.sent ++ (bookUpload net nowIso st (parseHighlights md5 latest)).sent,
    okSent := st.okSent ++ (bookUpload net nowIso st (parseHighlights md5 latest)).okSent,
    total :=
      if bookNewPayloads nowIso st.store (parseHighlights md5 latest) ≠ [] then
        st.total + (bookNewPayloads nowIso st.store (parseHighlights md5 latest)).length
      else st.total,
    call := (bookUpload net nowIso st (parseHighlights md5 latest)).call }

/-- The body of `for book_title, files in book_groups.items()`. Group file
lists are nonempty by construction of the grouper; the `[]` branch is
unreachable (`max` over an empty list would raise). -/
def processBook (md5 : String → String) (net : Nat → Bool) (nowIso : String)
    (st : RunState) (group : String × List ExportFile) : RunState :=
  match group.2 with
  | [] => st
  | f0 :: fs =>
    if dictLookup st.store.file_hashes (getLatestBookFile f0 fs).path
        = some (getLatestBookFile f0 fs).fileHash then st
    else processChanged md5 net nowIso st (getLatestBookFile f0 fs)

/-- `sync()`: group, then process each book; a missing mount point raises
`FileNotFoundError`, which the top-level handler catches before any cache
write. -/
def sync (md5 : String → String) (net : Nat → Bool) (nowIso : String)
    (dirExists : Bool) (files : List ExportFile) (store0 : Store) : RunState :=
  match groupFilesByBook dirExists files with
  | Except.error _ => initRunState store0
  | Except.ok groups => groups.foldl (processBook md5 net nowIso) (initRunState store0)

/-! ## Specification-side helper functions used to state properties -/

/-- The batches the upload loop sends for a queue: successive
`take batchSize` chunks (same fuel convention as `uploadGo`). -/
def batchesGo : Nat → List Payload → List (List Payload)
  | _, [] => []
  | 0, _ :: _ => []
  | fuel + 1, p :: rest =>
    (p :: rest).take batchSize :: batchesGo fuel ((p :: rest).drop batchSize)

/-- The sizes of the successive batches for a queue of a given length. -/
def lensGo : Nat → Nat → List Nat
  | _, 0 => []
  | 0, _ + 1 => []
  | fuel + 1, n + 1 => min batchSize (n + 1) :: lensGo fuel (n + 1 - batchSize)

/-- The authoritative (latest-mtime) file of a book group, when the group is
nonempty. -/
def latestOf (g : String × List ExportFile) : Option ExportFile :=
  match g.2 with
  | [] => none
  | f :: fs => some (getLatestBookFile f fs)

/-- All files appearing in a grouping, in group order. -/
def joinFiles (gs : List (String × List ExportFile)) : List ExportFile :=
  (gs.map Prod.snd).flatten

/-- The files the grouper does not skip. -/
def keptFile (f : ExportFile) : Bool :=
  !(seqStarts macJunkChars f.name.toList) && f.content.isSome

/-- The authoritative files of distinct groups have distinct paths. -/
def LatestPathsDistinct (gs : List (String × List ExportFile)) : Prop :=
  gs.Pairwise (fun a b => ∀ la lb, latestOf a = some la → latestOf b = some lb →
    la.path ≠ lb.path)

/-! ## Concrete fixtures used by closed theorems and witnesses -/

/-- Stand-in for the external md5 hex digest in concrete instances: any
function of the concatenated string works, the program only compares digests
for equality. -/
def cMd5 : String → String := fun s => s

def cNow : String := "2026-01-01T00:00:00"

def cNetT : Nat → Bool := fun _ => true

def cNetF : Nat → Bool := fun _ => false

def cTitle : String := "My Book"

def cTextA : String := "AAAAAAAAAAAA"

def cTextB : String := "BBBBBBBBBBBB"

def cDivA : BookmarkDiv :=
  { idAttr := some ("1"), classes := [], pageText := none,
    textElem := some cTextA, noteElem := none, spanText := none }

def cDivB : BookmarkDiv :=
  { idAttr := some ("2"), classes := [], pageText := none,
    textElem := some cTextB, noteElem := none, spanText := none }

def cDocA : HtmlDoc := { h1 := some cTitle, titleTag := none, bookmarks := [cDivA, cDivB] }

def cFileA : ExportFile :=
  { path := "/Notes/b.html", name := "b.html", stem := "b", mtime := 0,
    fileHash := "hA", content := some cDocA }

def cIdA : String := cMd5 (cTitle ++ cTextA)

def cIdB : String := cMd5 (cTitle ++ cTextB)

/-- A starting store that already records highlight A as synced. -/
def cStoreA : Store :=
  { synced_highlights := [(cIdA, { synced_at := "", book := cTitle })], file_hashes := [] }

def emptyStore : Store := { synced_highlights := [], file_hashes := [] }

def cPayB : Payload :=
  { text := cTextB, title := cTitle, author := unknownAuthor,
    source_type := sourceTypeBook, category := categoryBooks,
    highlighted_at := cNow ++ plusUtc, location := none, location_type := none, note := none }

def cDocC9 : HtmlDoc := { h1 := some cTitle, titleTag := none, bookmarks := [cDivB] }

def cFileC9 : ExportFile :=
  { path := "/Notes/c9.html", name := "c9.html", stem := "c9", mtime := 0,
    fileHash := "h9", content := some cDocC9 }

/-- A file with no `h1` but a `title` element whose text equals the filename
stem. -/
def cDocC10 : HtmlDoc := { h1 := none, titleTag := some ("Foo"), bookmarks := [] }

def cFileC10 : ExportFile :=
  { path := "/Notes/Foo.html", name := "Foo.html", stem := "Foo", mtime := 0,
    fileHash := "h10", content := some cDocC10 }

def cText11 : String := "AAAAAAAAAAA"

def cDiv11 : BookmarkDiv :=
  { idAttr := some ("3"), classes := [], pageText := none,
    textElem := some cText11, noteElem := none, spanText := none }

def cDocC5 : HtmlDoc := { h1 := some cTitle, titleTag := none, bookmarks := [cDiv11] }

def cFileC5 : ExportFile :=
  { path := "/Notes/c5.html", name := "c5.html", stem := "c5", mtime := 0,
    fileHash := "h5", content := some cDocC5 }

/-! ## Dictionary lemmas -/

theorem dictLookup_dictInsert_self {α : Type} (l : List (String × α)) (k : String) (v : α) :
    dictLookup (dictInsert l k v) k = some v := by
  induction l with
  | nil => simp [dictInsert, dictLookup]
  | cons p ps ih =>
    by_cases h : p.1 = k
    · simp [dictInsert, dictLookup, h]
    · simp [dictInsert, dictLookup, h, ih]

theorem dictLookup_dictInsert_ne {α : Type} (l : List (String × α)) (k k' : String) (v : α)
    (h : k' ≠ k) : dictLookup (dictInsert l k v) k' = dictLookup l k' := by
  induction l with
  | nil =>
    simp only [dictInsert, dictLookup]
    rw [if_neg (fun hh => h hh.symm)]
  | cons p ps ih =>
    by_cases hp : p.1 = k
    · simp [dictInsert, dictLookup, hp, Ne.symm h]
    · simp [dictInsert, dictLookup, hp, ih]

/-! ## Upload-loop lemmas -/

theorem batchesGo_nil (fuel : Nat) : batchesGo fuel [] = [] := by
  cases fuel <;> rfl

theorem uploadGo_sent (net : Nat → Bool) (nowIso title : String) (hs : List Highlight) :
    ∀ fuel ps i st, ps.length ≤ fuel →
      (uploadGo net nowIso title hs fuel i ps st).sent = st.sent ++ batchesGo fuel ps := by
  intro fuel
  induction fuel with
  | zero =>
    intro ps i st h
    cases ps with
    | nil => simp [uploadGo, batchesGo]
    | cons p rest => simp at h
  | succ fuel ih =>
    intro ps i st h
    cases ps with
    | nil => simp [uploadGo, batchesGo]
    | cons p rest =>
      have hlen : ((p :: rest).drop batchSize).length ≤ fuel := by
        simp only [List.length_drop, List.length_cons, batchSize]
        simp only [List.length_cons] at h
        omega
      simp only [uploadGo, batchesGo]
      rw [ih _ _ _ hlen]
      simp

theorem batchesGo_flatten : ∀ fuel ps, ps.length ≤ fuel → (batchesGo fuel ps).flatten = ps := by
  intro fuel
  induction fuel with
  | zero =>
    intro ps h
    cases ps with
    | nil => simp [batchesGo]
    | cons p rest => simp at h
  | succ fuel ih =>
    intro ps h
    cases ps with
    | nil => simp [batchesGo]
    | cons p rest =>
      have hlen : ((p :: rest).drop batchSize).length ≤ fuel := by
        simp only [List.length_drop, List.length_cons, batchSize]
        simp only [List.length_cons] at h
        omega
      simp only [batchesGo, List.flatten_cons]
      rw [ih _ hlen, List.take_append_drop]

theorem batchesGo_length : ∀ fuel ps, ps.length ≤ fuel →
    (batchesGo fuel ps).length = (ps.length + 99) / 100 := by
  intro fuel
  induction fuel with
  | zero =>
    intro ps h
    cases ps with
    | nil => simp [batchesGo]
    | cons p rest => simp at h
  | succ fuel ih =>
    intro ps h
    cases ps with
    | nil => simp [batchesGo]
    | cons p rest =>
      have hlen : ((p :: rest).drop batchSize).length ≤ fuel := by
        simp only [List.length_drop, List.length_cons, batchSize]
        simp only [List.length_cons] at h
        omega
      simp only [batchesGo, List.length_cons]
      rw [ih _ hlen]
      simp only [List.length_drop, List.length_cons, batchSize]
      omega

theorem batchesGo_map_length : ∀ fuel ps,
    (batchesGo fuel ps).map List.length = lensGo fuel ps.length := by
  intro fuel
  induction fuel with
  | zero =>
    intro ps
    cases ps with
    | nil => rfl
    | cons p rest => rfl
  | succ fuel ih =>
    intro ps
    cases ps with
    | nil => rfl
    | cons p rest =>
      simp only [batchesGo, List.map_cons, List.length_cons, lensGo]
      rw [ih]
      simp [List.length_take, List.length_drop]

theorem batchesGo_dropLast : ∀ fuel ps, ps.length ≤ fuel →
    ∀ b ∈ (batchesGo fuel ps).dropLast, b.length = batchSize := by
  intro fuel
  induction fuel with
  | zero =>
    intro ps h
    cases ps with
    | nil => simp [batchesGo]
    | cons p rest => simp at h
  | succ fuel ih =>
    intro ps h
    cases ps with
    | nil => simp [batchesGo]
    | cons p rest =>
      cases hdrop : (p :: rest).drop batchSize with
      | nil =>
        simp [batchesGo, hdrop, batchesGo_nil]
      | cons q qs =>
        have hlen : (q :: qs).length ≤ fuel := by
          have := congrArg List.length hdrop
          simp only [List.length_drop, List.length_cons, batchSize] at this
          simp only [List.length_cons] at h ⊢
          omega
        have htail : batchesGo fuel (q :: qs) ≠ [] := by
          cases fuel with
          | zero => simp at hlen
          | succ fuel' => simp [batchesGo]
        have hgt : batchSize < (p :: rest).length := by
          have := congrArg List.length hdrop
          simp only [List.length_drop, List.length_cons] at this
          simp only [List.length_cons]
          omega
        intro b hb
        rw [batchesGo, hdrop] at hb
        rw [List.dropLast_cons_of_ne_nil htail] at hb
        rcases List.mem_cons.mp hb with hb | hb
        · subst hb
          simp only [List.length_take]
          omega
        · exact ih (q :: qs) hlen b hb

/-! ## Extractor lemmas -/

theorem blockHighlight_eq_some (md5 : String → String) (title : String)
    (ts : Option String) (d : BookmarkDiv) (h : Highlight)
    (he : blockHighlight md5 title ts d = some h) :
    h.highlighted_at = ts ∧ h.id = md5 (title ++ h.text) := by
  unfold blockHighlight at he
  split at he <;> try exact Option.noConfusion he
  split at he <;> try exact Option.noConfusion he
  split at he <;> try exact Option.noConfusion he
  split at he <;> try exact Option.noConfusion he
  rw [Option.some.injEq] at he
  subst he
  exact ⟨rfl, rfl⟩

theorem parseHighlights_content (md5 : String → String) (f : ExportFile) (doc : HtmlDoc)
    (hc : f.content = some doc) :
    (parseHighlights md5 f).title = (parseTitleTs f.stem doc.h1).1 ∧
    (parseHighlights md5 f).highlights =
      doc.bookmarks.filterMap
        (blockHighlight md5 (parseTitleTs f.stem doc.h1).1 (parseTitleTs f.stem doc.h1).2) := by
  unfold parseHighlights
  rw [hc]
  exact ⟨rfl, rfl⟩

theorem blockHighlight_none_of_short (md5 : String → String) (title : String)
    (ts : Option String) (d : BookmarkDiv) (attr rawText : String)
    (hid : d.idAttr = some attr) (ht : d.textElem = some rawText)
    (hlen : ¬ (pyStrip rawText).length > 10) :
    blockHighlight md5 title ts d = none := by
  unfold blockHighlight
  rw [hid, ht]
  by_cases hattr : attr = ""
  · simp [hattr]
  · simp only [if_neg hattr]
    rw [if_neg (fun hc : pyStrip rawText ≠ "" ∧ (pyStrip rawText).length > 10 => hlen hc.2)]

theorem blockHighlight_some_of_long (md5 : String → String) (title : String)
    (ts : Option String) (d : BookmarkDiv) (attr rawText : String)
    (hid : d.idAttr = some attr) (hattr : attr ≠ "") (ht : d.textElem = some rawText)
    (hne : pyStrip rawText ≠ "") (hlen : (pyStrip rawText).length > 10) :
    blockHighlight md5 title ts d =
      some { id := md5 (title ++ pyStrip rawText), text := pyStrip rawText,
             location := pageLocation d,
             note := noteWithColor (colorTag d.classes) (noteText d),
             highlighted_at := ts } := by
  unfold blockHighlight
  rw [hid, ht]
  simp only [if_neg hattr]
  rw [if_pos ⟨hne, hlen⟩]

/-- C5: a highlight container carrying an identifying attribute whose trimmed
text has exactly 10 characters contributes nothing to the extractor's result,
while one with 11 characters contributes a highlight with that trimmed text
(the filter boundary is strictly more than 10). -/
theorem c5_length_boundary (md5 : String → String) (f : ExportFile) (doc : HtmlDoc)
    (d : BookmarkDiv) (attr rawText : String)
    (hc : f.content = some doc) (hd : d ∈ doc.bookmarks)
    (hid : d.idAttr = some attr) (hattr : attr ≠ "") (ht : d.textElem = some rawText) :
    ((parseHighlights md5 f).highlights =
      doc.bookmarks.filterMap
        (blockHighlight md5 (parseHighlights md5 f).title (parseTitleTs f.stem doc.h1).2)) ∧
    ((pyStrip rawText).length = 10 →
      blockHighlight md5 (parseHighlights md5 f).title (parseTitleTs f.stem doc.h1).2 d
        = none) ∧
    ((pyStrip rawText).length = 11 →
      ∃ h, blockHighlight md5 (parseHighlights md5 f).title (parseTitleTs f.stem doc.h1).2 d
          = some h ∧
        h ∈ (parseHighlights md5 f).highlights ∧ h.text = pyStrip rawText) := by
  obtain ⟨htitle, hhl⟩ := parseHighlights_content md5 f doc hc
  refine ⟨by rw [htitle]; exact hhl, ?_, ?_⟩
  · intro h10
    exact blockHighlight_none_of_short md5 _ _ d attr rawText hid ht (by omega)
  · intro h11
    have hne : pyStrip rawText ≠ "" := by
      intro hh
      rw [hh] at h11
      exact absurd h11 (by decide)
    refine ⟨_, blockHighlight_some_of_long md5 _ _ d attr rawText hid hattr ht hne
      (by omega), ?_, rfl⟩
    rw [htitle, hhl]
    exact List.mem_filterMap.mpr ⟨d, hd,
      blockHighlight_some_of_long md5 _ _ d attr rawText hid hattr ht hne (by omega)⟩

/-- C5 witness: on a concrete file holding one identified container with an
11-character trimmed text, the boundary theorem applies and yields inclusion. -/
theorem c5_length_boundary_witness :
    cFileC5.content = some cDocC5 ∧ cDiv11 ∈ cDocC5.bookmarks ∧
    ((pyStrip cText11).length = 11 →
      ∃ h, blockHighlight cMd5 (parseHighlights cMd5 cFileC5).title
          (parseTitleTs cFileC5.stem cDocC5.h1).2 cDiv11 = some h ∧
        h ∈ (parseHighlights cMd5 cFileC5).highlights ∧ h.text = pyStrip cText11) :=
  ⟨rfl, by decide,
    (c5_length_boundary cMd5 cFileC5 cDocC5 cDiv11 ("3") cText11 rfl (by decide) rfl
      (by decide) rfl).2.2⟩

/-- C6: the upload loop over a queue of n payloads performs exactly
ceil(n/100) calls, every batch except possibly the last has exactly 100
payloads, the batches concatenated in call order equal the queue, and a
queue of 250 payloads yields exactly three calls of sizes 100, 100, 50. -/
theorem c6_batch_partition (net : Nat → Bool) (nowIso title : String) (hs : List Highlight)
    (ps : List Payload) (synced0 : List (String × SyncEntry)) (call0 : Nat) (p : Payload) :
    ((runUpload net nowIso title hs ps
        { synced := synced0, sent := [], okSent := [], call := call0 }).sent).flatten = ps ∧
    (runUpload net nowIso title hs ps
        { synced := synced0, sent := [], okSent := [], call := call0 }).sent.length
      = (ps.length + 99) / 100 ∧
    (∀ b ∈ (runUpload net nowIso title hs ps
        { synced := synced0, sent := [], okSent := [], call := call0 }).sent.dropLast,
      b.length = batchSize) ∧
    ((runUpload net nowIso title hs (List.replicate 250 p)
        { synced := synced0, sent := [], okSent := [], call := call0 }).sent).map List.length
      = [100, 100, 50] := by
  have hsent : ∀ qs : List Payload,
      (runUpload net nowIso title hs qs
        { synced := synced0, sent := [], okSent := [], call := call0 }).sent
        = batchesGo qs.length qs := by
    intro qs
    rw [runUpload, uploadGo_sent net nowIso title hs qs.length qs 0 _ (le_refl _)]
    simp
  refine ⟨?_, ?_, ?_, ?_⟩
  · rw [hsent]
    exact batchesGo_flatten _ _ (le_refl _)
  · rw [hsent]
    exact batchesGo_length _ _ (le_refl _)
  · rw [hsent]
    exact batchesGo_dropLast _ _ (le_refl _)
  · rw [hsent, batchesGo_map_length]
    simp only [List.length_replicate]
    decide

/-- C6 witness: the partition theorem applied to a concrete one-payload
queue. -/
theorem c6_batch_partition_witness :
    ((runUpload cNetT cNow cTitle [] [cPayB]
        { synced := [], sent := [], okSent := [], call := 0 }).sent).flatten = [cPayB] :=
  (c6_batch_partition cNetT cNow cTitle [] [cPayB] [] 0 cPayB).1

/-- C7: when the input directory does not exist the run fails fatally before
any work: no cache snapshot is ever written and the resulting in-memory
state equals the initial one (zero uploads, zero total). -/
theorem c7_unmounted_no_writes (md5 : String → String) (net : Nat → Bool) (nowIso : String)
    (files : List ExportFile) (store0 : Store) :
    sync md5 net nowIso false files store0 = initRunState store0 ∧
    (sync md5 net nowIso false files store0).saves = [] ∧
    (sync md5 net nowIso false files store0).store = store0 ∧
    (sync md5 net nowIso false files store0).sent = [] :=
  ⟨rfl, rfl, rfl, rfl⟩

/-- C8: for a book whose authoritative file's hash differs from the stored
one, processing the book always leaves the store's file-hash entry for that
path equal to the new hash, whatever the upload outcomes were. -/
theorem c8_hash_updated_unconditionally (md5 : String → String) (net : Nat → Bool)
    (nowIso : String) (st : RunState) (t : String) (f0 : ExportFile) (fs : List ExportFile)
    (hch : dictLookup st.store.file_hashes (getLatestBookFile f0 fs).path ≠
      some (getLatestBookFile f0 fs).fileHash) :
    dictLookup (processBook md5 net nowIso st (t, f0 :: fs)).store.file_hashes
      (getLatestBookFile f0 fs).path = some (getLatestBookFile f0 fs).fileHash := by
  unfold processBook
  dsimp only
  rw [if_neg hch]
  exact dictLookup_dictInsert_self _ _ _

/-- C8 witness: a concrete first-seen book whose every upload call fails
still gets its file hash recorded. -/
theorem c8_hash_updated_unconditionally_witness :
    (dictLookup (initRunState emptyStore).store.file_hashes
        (getLatestBookFile cFileC9 []).path ≠ some (getLatestBookFile cFileC9 []).fileHash) ∧
    dictLookup (processBook cMd5 cNetF cNow (initRunState emptyStore)
        (cTitle, [cFileC9])).store.file_hashes
      (getLatestBookFile cFileC9 []).path = some (getLatestBookFile cFileC9 []).fileHash :=
  ⟨by decide,
    c8_hash_updated_unconditionally cMd5 cNetF cNow (initRunState emptyStore) cTitle
      cFileC9 [] (by decide)⟩

/-- C1: at the failing input — a store already holding highlight A's id and
a file whose parsed highlights are A then B — the only batch sent is
B's payload and its upload succeeds, yet B's id is never marked synced while
A's entry is rewritten: the marking loop reads `highlights[i:i+len(batch)]`
from the unfiltered parsed list. -/
theorem c1_wrong_highlights_marked :
    (sync cMd5 cNetT cNow true [cFileA] cStoreA).sent = [[cPayB]] ∧
    cPayB.text = cTextB ∧
    dictLookup (sync cMd5 cNetT cNow true [cFileA] cStoreA).store.synced_highlights cIdB
      = none ∧
    dictLookup (sync cMd5 cNetT cNow true [cFileA] cStoreA).store.synced_highlights cIdA
      = some { synced_at := cNow, book := cTitle } := ⟨rfl, rfl, rfl, rfl⟩

/-- C10 counterexample: a file with no h1 element, a title element "Foo" and
filename stem "Foo": the grouper's group key equals the title the extractor
assigns, contradicting that the two always differ. -/
theorem c10_counterexample :
    cDocC10.h1 = none ∧ cDocC10.titleTag = some ("Foo") ∧
    bookTitleOfFile cFileC10 cDocC10 = (parseHighlights cMd5 cFileC10).title :=
  ⟨rfl, rfl, rfl⟩

/-- C10 amended: for a file with no primary heading but a secondary title
element, the grouper keys the file under the processed title-element text
while the extractor titles it by the filename stem (the two coincide exactly
when those strings are equal); highlight identifiers and upload payload
titles use the stem, not the group key. -/
theorem c10_stem_vs_group_key (md5 : String → String) (f : ExportFile) (doc : HtmlDoc)
    (t : String) (hc : f.content = some doc) (hh1 : doc.h1 = none)
    (htt : doc.titleTag = some t) :
    bookTitleOfFile f doc = titleFromText t ∧
    (parseHighlights md5 f).title = f.stem ∧
    (∀ h ∈ (parseHighlights md5 f).highlights, h.id = md5 (f.stem ++ h.text)) ∧
    (∀ (nowIso author : String) (h : Highlight),
      (createReadwisePayload nowIso (parseHighlights md5 f).title author h).title
        = f.stem) := by
  obtain ⟨htitle0, hhl⟩ := parseHighlights_content md5 f doc hc
  have hts : parseTitleTs f.stem doc.h1 = (f.stem, none) := by
    simp only [parseTitleTs, hh1]
  rw [hts] at htitle0 hhl
  refine ⟨by simp only [bookTitleOfFile, hh1, htt], htitle0, ?_, ?_⟩
  · intro h hm
    rw [hhl] at hm
    obtain ⟨d, _, heq⟩ := List.mem_filterMap.mp hm
    exact (blockHighlight_eq_some _ _ _ _ _ heq).2
  · intro nowIso author h
    rw [show (createReadwisePayload nowIso (parseHighlights md5 f).title author h).title
      = (parseHighlights md5 f).title from rfl, htitle0]

/-- C10 witness: the amended theorem applied to the concrete file whose
title-element text coincides with its stem. -/
theorem c10_stem_vs_group_key_witness :
    cFileC10.content = some cDocC10 ∧
    bookTitleOfFile cFileC10 cDocC10 = titleFromText ("Foo") ∧
    (parseHighlights cMd5 cFileC10).title = cFileC10.stem := by
  have hx := c10_stem_vs_group_key cMd5 cFileC10 cDocC10 ("Foo") rfl rfl rfl
  exact ⟨rfl, hx.1, hx.2.1⟩

/-- C9 counterexample: a run over one file with one new highlight whose only
upload batch fails still reports a total of 1 uploaded, while no batch
succeeded — the summary does not equal the number actually uploaded. -/
theorem c9_counterexample :
    (sync cMd5 cNetF cNow true [cFileC9] emptyStore).total = 1 ∧
    (sync cMd5 cNetF cNow true [cFileC9] emptyStore).okSent = [] ∧
    (sync cMd5 cNetF cNow true [cFileC9] emptyStore).sent = [[cPayB]] :=
  ⟨rfl, rfl, rfl⟩

/-! ## C9: the printed total versus the batches attempted -/

theorem bookUpload_sent (net : Nat → Bool) (nowIso : String) (st : RunState)
    (parsed : ParsedFile) :
    (bookUpload net nowIso st parsed).sent
      = batchesGo (bookNewPayloads nowIso st.store parsed).length
          (bookNewPayloads nowIso st.store parsed) := by
  unfold bookUpload
  by_cases hne : bookNewPayloads nowIso st.store parsed = []
  · rw [if_neg (by simp [hne]), hne, batchesGo_nil]
  · rw [if_pos hne, runUpload, uploadGo_sent _ _ _ _ _ _ _ _ (le_refl _)]
    simp

theorem processBook_total_inv (md5 : String → String) (net : Nat → Bool) (nowIso : String)
    (st : RunState) (g : String × List ExportFile)
    (hinv : st.total = st.sent.flatten.length) :
    (processBook md5 net nowIso st g).total
      = (processBook md5 net nowIso st g).sent.flatten.length := by
  rcases g with ⟨t, fsl⟩
  cases fsl with
  | nil => exact hinv
  | cons f0 fs =>
    unfold processBook
    dsimp only
    by_cases hskip : dictLookup st.store.file_hashes (getLatestBookFile f0 fs).path
        = some (getLatestBookFile f0 fs).fileHash
    · rw [if_pos hskip]
      exact hinv
    · rw [if_neg hskip]
      show (processChanged md5 net nowIso st (getLatestBookFile f0 fs)).total = _
      unfold processChanged
      dsimp only
      rw [bookUpload_sent, List.flatten_append,
        batchesGo_flatten _ _ (le_refl _), List.length_append]
      by_cases hne : bookNewPayloads nowIso st.store
          (parseHighlights md5 (getLatestBookFile f0 fs)) = []
      · rw [if_neg (by simp [hne]), hne]
        simp [hinv]
      · rw [if_pos hne, hinv]

theorem foldl_total_inv (md5 : String → String) (net : Nat → Bool) (nowIso : String) :
    ∀ (gs : List (String × List ExportFile)) (st : RunState),
      st.total = st.sent.flatten.length →
      (gs.foldl (processBook md5 net nowIso) st).total
        = (gs.foldl (processBook md5 net nowIso) st).sent.flatten.length := by
  intro gs
  induction gs with
  | nil => intro st h; exact h
  | cons g rest ih =>
    intro st h
    exact ih (processBook md5 net nowIso st g) (processBook_total_inv md5 net nowIso st g h)

/-- C9 amended: the final reported total equals the number of highlights in
all batches attempted during the run — queued highlights are counted whether
or not their batch's upload succeeded, so the summary overstates the actual
uploads whenever a batch fails. -/
theorem c9_total_counts_queued (md5 : String → String) (net : Nat → Bool) (nowIso : String)
    (dirExists : Bool) (files : List ExportFile) (store0 : Store) :
    (sync md5 net nowIso dirExists files store0).total
      = (sync md5 net nowIso dirExists files store0).sent.flatten.length := by
  cases dirExists with
  | false => rfl
  | true =>
    show ((files.foldl groupStep []).foldl (processBook md5 net nowIso)
        (initRunState store0)).total = _
    exact foldl_total_inv md5 net nowIso _ (initRunState store0) rfl

/-! ## C4: idempotence machinery -/

theorem getLatestBookFile_mem : ∀ (fs : List ExportFile) (f : ExportFile),
    getLatestBookFile f fs ∈ f :: fs := by
  intro fs
  induction fs with
  | nil =>
    intro f
    simp [getLatestBookFile]
  | cons b bs ih =>
    intro f
    have hstep : getLatestBookFile f (b :: bs)
        = getLatestBookFile (if b.mtime > f.mtime then b else f) bs := rfl
    rw [hstep]
    rcases List.mem_cons.mp (ih (if b.mtime > f.mtime then b else f)) with h | h
    · rw [h]
      by_cases hm : b.mtime > f.mtime
      · rw [if_pos hm]
        exact List.mem_cons_of_mem f (List.mem_cons_self b bs)
      · rw [if_neg hm]
        exact List.mem_cons_self f (b :: bs)
    · exact List.mem_cons_of_mem f (List.mem_cons_of_mem b h)

theorem latestOf_mem (g : String × List ExportFile) (lf : ExportFile)
    (h : latestOf g = some lf) : lf ∈ g.2 := by
  rcases g with ⟨t, fsl⟩
  cases fsl with
  | nil => exact absurd h (by simp [latestOf])
  | cons f0 fs =>
    have heq : getLatestBookFile f0 fs = lf := by simpa [latestOf] using h
    rw [← heq]
    exact getLatestBookFile_mem fs f0

theorem processBook_hash_self (md5 : String → String) (net : Nat → Bool) (nowIso : String)
    (st : RunState) (t : String) (f0 : ExportFile) (fs : List ExportFile) :
    dictLookup (processBook md5 net nowIso st (t, f0 :: fs)).store.file_hashes
      (getLatestBookFile f0 fs).path = some (getLatestBookFile f0 fs).fileHash := by
  unfold processBook
  dsimp only
  by_cases hskip : dictLookup st.store.file_hashes (getLatestBookFile f0 fs).path
      = some (getLatestBookFile f0 fs).fileHash
  · rw [if_pos hskip]
    exact hskip
  · rw [if_neg hskip]
    exact dictLookup_dictInsert_self _ _ _

theorem processBook_hash_other (md5 : String → String) (net : Nat → Bool) (nowIso : String)
    (st : RunState) (g : String × List ExportFile) (p : String)
    (hne : ∀ lf, latestOf g = some lf → lf.path ≠ p) :
    dictLookup (processBook md5 net nowIso st g).store.file_hashes p
      = dictLookup st.store.file_hashes p := by
  rcases g with ⟨t, fsl⟩
  cases fsl with
  | nil => rfl
  | cons f0 fs =>
    unfold processBook
    dsimp only
    by_cases hskip : dictLookup st.store.file_hashes (getLatestBookFile f0 fs).path
        = some (getLatestBookFile f0 fs).fileHash
    · rw [if_pos hskip]
    · rw [if_neg hskip]
      have hlf : (getLatestBookFile f0 fs).path ≠ p := hne _ (by simp [latestOf])
      exact dictLookup_dictInsert_ne _ _ _ _ (fun hh => hlf hh.symm)

theorem foldl_hash_preserved (md5 : String → String) (net : Nat → Bool) (nowIso : String) :
    ∀ (gs : List (String × List ExportFile)) (st : RunState) (p : String),
      (∀ g ∈ gs, ∀ lf, latestOf g = some lf → lf.path ≠ p) →
      dictLookup (gs.foldl (processBook md5 net nowIso) st).store.file_hashes p
        = dictLookup st.store.file_hashes p := by
  intro gs
  induction gs with
  | nil => intro st p _; rfl
  | cons g rest ih =>
    intro st p hne
    show dictLookup ((rest.foldl (processBook md5 net nowIso)
        (processBook md5 net nowIso st g))).store.file_hashes p = _
    rw [ih (processBook md5 net nowIso st g) p
      (fun g' hg' => hne g' (List.mem_cons_of_mem g hg'))]
    exact processBook_hash_other md5 net nowIso st g p (hne g (List.mem_cons_self g rest))

theorem foldl_hash_recorded (md5 : String → String) (net : Nat → Bool) (nowIso : String) :
    ∀ (gs : List (String × List ExportFile)) (st : RunState),
      LatestPathsDistinct gs →
      ∀ g ∈ gs, ∀ lf, latestOf g = some lf →
        dictLookup (gs.foldl (processBook md5 net nowIso) st).store.file_hashes lf.path
          = some lf.fileHash := by
  intro gs
  induction gs with
  | nil => intro st _ g hg; exact absurd hg (List.not_mem_nil g)
  | cons g0 rest ih =>
    intro st hdist g hg lf hlf
    obtain ⟨hg0, hrest⟩ := List.pairwise_cons.mp hdist
    rcases List.mem_cons.mp hg with hEq | hmem
    · subst hEq
      show dictLookup ((rest.foldl (processBook md5 net nowIso)
          (processBook md5 net nowIso st g))).store.file_hashes lf.path = some lf.fileHash
      rw [foldl_hash_preserved md5 net nowIso rest _ lf.path
        (fun g' hg' lf' hlf' => (hg0 g' hg' lf lf' hlf hlf').symm)]
      rcases g with ⟨t, fsl⟩
      cases fsl with
      | nil => exact absurd hlf (by simp [latestOf])
      | cons f0 fs =>
        have heq : getLatestBookFile f0 fs = lf := by simpa [latestOf] using hlf
        rw [← heq]
        exact processBook_hash_self md5 net nowIso st t f0 fs
    · show dictLookup ((rest.foldl (processBook md5 net nowIso)
          (processBook md5 net nowIso st g0))).store.file_hashes lf.path = some lf.fileHash
      exact ih _ hrest g hmem lf hlf

theorem foldl_all_skipped (md5 : String → String) (net : Nat → Bool) (nowIso : String) :
    ∀ (gs : List (String × List ExportFile)) (st : RunState),
      (∀ g ∈ gs, ∀ lf, latestOf g = some lf →
        dictLookup st.store.file_hashes lf.path = some lf.fileHash) →
      gs.foldl (processBook md5 net nowIso) st = st := by
  intro gs
  induction gs with
  | nil => intro st _; rfl
  | cons g rest ih =>
    intro st hup
    have hskip : processBook md5 net nowIso st g = st := by
      rcases g with ⟨t, fsl⟩
      cases fsl with
      | nil => rfl
      | cons f0 fs =>
        unfold processBook
        dsimp only
        rw [if_pos (hup (t, f0 :: fs) (List.mem_cons_self _ _) (getLatestBookFile f0 fs)
          (by simp [latestOf]))]
    show rest.foldl (processBook md5 net nowIso) (processBook md5 net nowIso st g) = st
    rw [hskip]
    exact ih st (fun g' hg' => hup g' (List.mem_cons_of_mem g hg'))

theorem groupInsert_perm (t : String) (f : ExportFile) :
    ∀ gs : List (String × List ExportFile),
      List.Perm (joinFiles (groupInsert gs t f)) (f :: joinFiles gs) := by
  intro gs
  induction gs with
  | nil => simp [groupInsert, joinFiles]
  | cons g rest ih =>
    by_cases hk : g.1 = t
    · show List.Perm (joinFiles (if g.1 = t then (g.1, g.2 ++ [f]) :: rest
        else g :: groupInsert rest t f)) _
      rw [if_pos hk]
      show List.Perm ((g.2 ++ [f]) ++ joinFiles rest) (f :: (g.2 ++ joinFiles rest))
      exact (List.perm_append_singleton f g.2).append_right (joinFiles rest)
    · show List.Perm (joinFiles (if g.1 = t then (g.1, g.2 ++ [f]) :: rest
        else g :: groupInsert rest t f)) _
      rw [if_neg hk]
      show List.Perm (g.2 ++ joinFiles (groupInsert rest t f)) (f :: (g.2 ++ joinFiles rest))
      exact (ih.append_left g.2).trans List.perm_middle

theorem foldl_groupStep_perm :
    ∀ (files : List ExportFile) (gs : List (String × List ExportFile)),
      List.Perm (joinFiles (files.foldl groupStep gs))
        (files.filter keptFile ++ joinFiles gs) := by
  intro files
  induction files with
  | nil => intro gs; simp
  | cons f rest ih =>
    intro gs
    show List.Perm (joinFiles (rest.foldl groupStep (groupStep gs f))) _
    cases hjunk : seqStarts macJunkChars f.name.toList with
    | true =>
      have hstep : groupStep gs f = gs := by
        unfold groupStep
        rw [hjunk]
        rfl
      have hkept : keptFile f = false := by
        unfold keptFile
        rw [hjunk]
        rfl
      rw [hstep, List.filter_cons]
      simp only [hkept]
      exact ih gs
    | false =>
      cases hcont : f.content with
      | none =>
        have hstep : groupStep gs f = gs := by
          unfold groupStep
          rw [hjunk, hcont]
          rfl
        have hkept : keptFile f = false := by
          unfold keptFile
          rw [hjunk, hcont]
          rfl
        rw [hstep, List.filter_cons]
        simp only [hkept]
        exact ih gs
      | some doc =>
        have hstep : groupStep gs f = groupInsert gs (bookTitleOfFile f doc) f := by
          unfold groupStep
          rw [hjunk, hcont]
          rfl
        have hkept : keptFile f = true := by
          unfold keptFile
          rw [hjunk, hcont]
          rfl
        rw [hstep, List.filter_cons]
        simp only [hkept, if_true]
        have h1 := ih (groupInsert gs (bookTitleOfFile f doc) f)
        have h2 := (groupInsert_perm (bookTitleOfFile f doc) f gs).append_left
          (rest.filter keptFile)
        have h3 : List.Perm (rest.filter keptFile ++ (f :: joinFiles gs))
            (f :: (rest.filter keptFile ++ joinFiles gs)) := List.perm_middle
        have h4 := (h1.trans h2).trans h3
        simpa using h4

theorem join_nodup_pairwise :
    ∀ gs : List (String × List ExportFile),
      ((joinFiles gs).map ExportFile.path).Nodup →
      gs.Pairwise (fun a b => ∀ fa ∈ a.2, ∀ fb ∈ b.2, fa.path ≠ fb.path) := by
  intro gs
  induction gs with
  | nil => intro _; exact List.Pairwise.nil
  | cons g rest ih =>
    intro hnd
    rw [show joinFiles (g :: rest) = g.2 ++ joinFiles rest from rfl, List.map_append] at hnd
    obtain ⟨h1, h2, hdisj⟩ := List.nodup_append.mp hnd
    refine List.Pairwise.cons ?_ (ih h2)
    intro b hb fa hfa fb hfb hEq
    refine hdisj (List.mem_map_of_mem ExportFile.path hfa) ?_
    rw [hEq]
    refine List.mem_map_of_mem ExportFile.path ?_
    exact List.mem_flatten.mpr ⟨b.2, List.mem_map_of_mem Prod.snd hb, hfb⟩

theorem pairwise_latest_distinct (gs : List (String × List ExportFile))
    (h : gs.Pairwise (fun a b => ∀ fa ∈ a.2, ∀ fb ∈ b.2, fa.path ≠ fb.path)) :
    LatestPathsDistinct gs := by
  refine h.imp ?_
  intro a b hab la lb hla hlb
  exact hab la (latestOf_mem a la hla) lb (latestOf_mem b lb hlb)

/-- C4: from any starting store, if the export files have pairwise-distinct
paths, then running sync twice with the same files and unchanged contents
uploads nothing on the second run: every book is skipped via the stored file
hash, so the second run performs zero upload calls and reports a total of
zero. -/
theorem c4_second_run_uploads_nothing (md5 : String → String) (net net' : Nat → Bool)
    (nowIso nowIso' : String) (dirExists : Bool) (files : List ExportFile) (store0 : Store)
    (hnodup : (files.map ExportFile.path).Nodup) :
    (sync md5 net' nowIso' dirExists files
        (sync md5 net nowIso dirExists files store0).store).sent = [] ∧
    (sync md5 net' nowIso' dirExists files
        (sync md5 net nowIso dirExists files store0).store).total = 0 := by
  cases dirExists with
  | false => exact ⟨rfl, rfl⟩
  | true =>
    have hperm := foldl_groupStep_perm files []
    have hjoin_nodup : ((joinFiles (files.foldl groupStep [])).map ExportFile.path).Nodup := by
      have hfilter : ((files.filter keptFile).map ExportFile.path).Nodup :=
        List.Nodup.sublist ((List.filter_sublist files).map ExportFile.path) hnodup
      refine ((hperm.map ExportFile.path)).symm.nodup ?_
      simpa [joinFiles] using hfilter
    have hdist : LatestPathsDistinct (files.foldl groupStep []) :=
      pairwise_latest_distinct _ (join_nodup_pairwise _ hjoin_nodup)
    have hrec := foldl_hash_recorded md5 net nowIso (files.foldl groupStep [])
      (initRunState store0) hdist
    have hskip : ((files.foldl groupStep []).foldl (processBook md5 net' nowIso')
        (initRunState (sync md5 net nowIso true files store0).store))
        = initRunState (sync md5 net nowIso true files store0).store := by
      apply foldl_all_skipped
      intro g hg lf hlf
      exact hrec g hg lf hlf
    refine ⟨?_, ?_⟩
    · show ((files.foldl groupStep []).foldl (processBook md5 net' nowIso')
          (initRunState (sync md5 net nowIso true files store0).store)).sent = []
      rw [hskip]
      rfl
    · show ((files.foldl groupStep []).foldl (processBook md5 net' nowIso')
          (initRunState (sync md5 net nowIso true files store0).store)).total = 0
      rw [hskip]
      rfl

/-- C4 witness: concrete double run over one file with a distinct path
uploads nothing the second time. -/
theorem c4_second_run_uploads_nothing_witness :
    ([cFileC9].map ExportFile.path).Nodup ∧
    ((sync cMd5 cNetF cNow true [cFileC9]
        (sync cMd5 cNetT cNow true [cFileC9] emptyStore).store).sent = [] ∧
      (sync cMd5 cNetF cNow true [cFileC9]
        (sync cMd5 cNetT cNow true [cFileC9] emptyStore).store).total = 0) :=
  ⟨by decide,
    c4_second_run_uploads_nothing cMd5 cNetT cNetF cNow cNow true [cFileC9] emptyStore
      (by decide)⟩

end PBSync
